import Mathlib

/-!
Verification of the resource-scanner (`src/scripts/links.js`) and the
timing collector (the unnamed performance-observer script) of the
AntidetectedDriver repository, against its natural-language specification.

The JavaScript is shallowly embedded: the DOM tree is a `Elem` tree, a
document carries the tree plus its attached style sheets, and each DOM
read API (`querySelectorAll`, `getComputedStyle`, `document.styleSheets`)
is modelled as a pure read of that state.  `getAllPageResources` is the
scanner; the timing collector is an append-only fold over delivery
batches.
-/

/-- JavaScript truthiness of a possibly-missing string attribute value:
`undefined` (here `none`) and the empty string are falsy. -/
def jsTruthy : Option String → Bool
  | none => false
  | some s => !(s = "")

/-- JavaScript `a || b` on possibly-missing string values: yields `a`
when `a` is truthy, otherwise `b` (as in `img.src || img.href`). -/
def jsOr (a b : Option String) : Option String :=
  if jsTruthy a then a else b

/-- JavaScript `a || b` where `a` is a plain (reflected) string and `b` a
string default, as in `link.rel || 'link'`. -/
def jsOrS (a b : String) : String :=
  if a = "" then b else a

/-- JavaScript `s.includes(pat)`: substring containment. -/
def jsIncludes (s pat : String) : Bool :=
  decide (pat.data <:+: s.data)

/-! ## The regular expression `/url\(["']?(.*?)["']?\)/`

`String.prototype.match` with this pattern returns the leftmost match
and its first capture group: after the literal `url(` and a greedy
optional quote, the group is lazy, so it is the shortest run of
non-newline characters followed by an optional quote and `)`. -/

/-- A single or double quote (the character class `["']`). -/
def isQuoteChar (c : Char) : Bool :=
  c = '"' || c.toNat = 39

/-- The lazy group `(.*?)` followed by `["']?\)`: returns the shortest
prefix of `cs` (of non-newline characters) after which an optional quote
and a closing parenthesis follow; `none` when no such prefix exists. -/
def lazyGroup : List Char → Option String
  | [] => none
  | c :: cs =>
    if c = ')' then some ""
    else if isQuoteChar c ∧ cs.head? = some ')' then some ""
    else if c = '\n' then none
    else (lazyGroup cs).map (fun g => String.mk (c :: g.data))

/-- Attempt to match the whole pattern at the head of `cs`: the literal
`url(`, then the greedy optional quote (backtracking to the unconsumed
alternative if needed), then the lazy group. -/
def tryUrlAt (cs : List Char) : Option String :=
  match cs with
  | 'u' :: 'r' :: 'l' :: '(' :: rest =>
    match rest with
    | q :: rest' =>
      if isQuoteChar q then (lazyGroup rest').orElse (fun _ => lazyGroup rest)
      else lazyGroup rest
    | [] => none
  | _ => none

/-- Leftmost-match search: try the pattern at each successive position. -/
def findUrlMatch : List Char → Option String
  | [] => none
  | c :: cs =>
    match tryUrlAt (c :: cs) with
    | some g => some g
    | none => findUrlMatch cs

/-- `s.match(/url\(["']?(.*?)["']?\)/)` projected to its first capture
group (`none` when the string has no match). -/
def matchUrl (s : String) : Option String :=
  findUrlMatch s.data

/-! ## The document model -/

/-- A DOM element: tag name, the attributes the scanner reads (`rel` is
a reflected string attribute, empty when absent; the others are `none`
when absent), the computed `background-image` value, and the child
elements in document order. -/
inductive Elem : Type where
  | mk : (tag rel : String) → (href src poster dataVal : Option String) →
      (bg : String) → (children : List Elem) → Elem

def Elem.tag : Elem → String
  | .mk t _ _ _ _ _ _ _ => t

def Elem.rel : Elem → String
  | .mk _ r _ _ _ _ _ _ => r

def Elem.href : Elem → Option String
  | .mk _ _ h _ _ _ _ _ => h

def Elem.src : Elem → Option String
  | .mk _ _ _ s _ _ _ _ => s

def Elem.poster : Elem → Option String
  | .mk _ _ _ _ p _ _ _ => p

def Elem.dataVal : Elem → Option String
  | .mk _ _ _ _ _ d _ _ => d

def Elem.bg : Elem → String
  | .mk _ _ _ _ _ _ b _ => b

def Elem.children : Elem → List Elem
  | .mk _ _ _ _ _ _ _ c => c

/-- A CSS rule, as far as the scanner inspects it: either a
`CSSFontFaceRule` carrying its `style.src` text, or any other rule. -/
inductive CSSRule : Type where
  | fontFace (src : String) : CSSRule
  | other : CSSRule

/-- An attached style sheet: its rule list, and whether rule enumeration
is permitted (`accessible = false` models a cross-origin sheet whose
`cssRules` getter throws; a sheet whose `cssRules` is null is modelled
by `rules = []`, matching the code's `sheet.cssRules || []`). -/
structure StyleSheet where
  rules : List CSSRule
  accessible : Bool

/-- Reading `sheet.cssRules`: throws (models as `Except.error`) on a
cross-origin sheet, otherwise yields the rule list. -/
def StyleSheet.cssRules (s : StyleSheet) : Except Unit (List CSSRule) :=
  if s.accessible then .ok s.rules else .error ()

/-- The observable document state the scanner reads: the element tree
and the attached style sheets. -/
structure Document where
  root : Elem
  styleSheets : List StyleSheet

mutual
/-- Pre-order (document-order) traversal of an element tree, pairing
each element with the tags of its ancestors (nearest first). -/
def preorder (anc : List String) : Elem → List (List String × Elem)
  | .mk t r h s p dv b cs =>
    (anc, .mk t r h s p dv b cs) :: preorderList (t :: anc) cs

def preorderList (anc : List String) : List Elem → List (List String × Elem)
  | [] => []
  | e :: es => preorder anc e ++ preorderList anc es
end

/-- A selector, as a predicate on an element and its ancestor tags. -/
def Matcher : Type := List String → Elem → Bool

/-- `document.querySelectorAll(sel)`: the elements matching `sel`, in
document order. -/
def querySelectorAll (d : Document) (m : Matcher) : List Elem :=
  ((preorder [] d.root).filter (fun p => m p.1 p.2)).map (fun p => p.2)

/-- `'link[href]'` -/
def mLink : Matcher := fun _ e => e.tag = "link" && e.href.isSome

/-- `'script[src]'` -/
def mScript : Matcher := fun _ e => e.tag = "script" && e.src.isSome

/-- `'img[src], source[src], image[href]'` -/
def mImg : Matcher := fun _ e =>
  (e.tag = "img" && e.src.isSome) || (e.tag = "source" && e.src.isSome) ||
  (e.tag = "image" && e.href.isSome)

/-- `'video source[src], video[poster]'` -/
def mVideo : Matcher := fun anc e =>
  (e.tag = "source" && e.src.isSome && anc.contains "video") ||
  (e.tag = "video" && e.poster.isSome)

/-- `'audio source[src]'` -/
def mAudio : Matcher := fun anc e =>
  e.tag = "source" && e.src.isSome && anc.contains "audio"

/-- `'*'` -/
def mAll : Matcher := fun _ _ => true

/-- `'iframe[src], embed[src]'` -/
def mFrame : Matcher := fun _ e =>
  (e.tag = "iframe" || e.tag = "embed") && e.src.isSome

/-- `'object[data]'` -/
def mObject : Matcher := fun _ e => e.tag = "object" && e.dataVal.isSome

/-! ## The scanner (`getAllPageResources`, src/scripts/links.js) -/

/-- One entry of the `resources` array: `{ url, type }`. -/
structure Rec where
  url : String
  type : String
deriving DecidableEq, Repr

/-- `addResource(url, type)` (links.js lines 5–8): return unchanged when
the url is falsy or an entry with the same url already exists, otherwise
push `{ url, type }`. -/
def addResource (resources : List Rec) (url : Option String) (type : String) :
    List Rec :=
  match url with
  | none => resources
  | some u =>
    if u = "" ∨ resources.any (fun res => res.url = u) = true then resources
    else resources ++ [{ url := u, type := type }]

/-- `getAllPageResources()` (links.js): the nine collection passes, in
source order, each folding `addResource` over its selector's matches. -/
def getAllPageResources (d : Document) : List Rec :=
  let resources : List Rec := []
  -- 1. <link> tags (CSS, favicon, …)
  let resources := (querySelectorAll d mLink).foldl (fun rs link =>
    addResource rs link.href
      (if jsIncludes link.rel "stylesheet" then "css" else jsOrS link.rel "link"))
    resources
  -- 2. <script> tags
  let resources := (querySelectorAll d mScript).foldl (fun rs script =>
    addResource rs script.src "js") resources
  -- 3. images
  let resources := (querySelectorAll d mImg).foldl (fun rs img =>
    addResource rs (jsOr img.src img.href) "image") resources
  -- 4. video
  let resources := (querySelectorAll d mVideo).foldl (fun rs video =>
    let rs := if jsTruthy video.src then addResource rs video.src "video" else rs
    if jsTruthy video.poster then addResource rs video.poster "video_poster" else rs)
    resources
  -- 5. audio
  let resources := (querySelectorAll d mAudio).foldl (fun rs audio =>
    addResource rs audio.src "audio") resources
  -- 6. CSS background images
  let resources := (querySelectorAll d mAll).foldl (fun rs element =>
    match matchUrl element.bg with
    | some g => if g = "" then rs else addResource rs (some g) "css_background_image"
    | none => rs) resources
  -- 7. iframe and embed
  let resources := (querySelectorAll d mFrame).foldl (fun rs frame =>
    addResource rs frame.src "embedded_content") resources
  -- 8. object data
  let resources := (querySelectorAll d mObject).foldl (fun rs obj =>
    addResource rs obj.dataVal "object_data") resources
  -- 9. @font-face rules, each sheet guarded by try/catch (CORS)
  let resources := d.styleSheets.foldl (fun rs sheet =>
    match sheet.cssRules with
    | .error _ => rs
    | .ok rules => rules.foldl (fun rs rule =>
        match rule with
        | .fontFace src =>
          match matchUrl src with
          | some m => if m = "" then rs else addResource rs (some m) "font"
          | none => rs
        | .other => rs) rs) resources
  resources

/-! ### The candidate stream

Running the nine passes is equivalent to folding `addResource` over one
ordered list of `(url, type)` candidates, the concatenation of each
pass's candidates in the fixed pass order.  This form drives the dedup
and earliest-wins proofs. -/

/-- Candidates of pass 1 (link tags). -/
def cand1 (d : Document) : List (Option String × String) :=
  (querySelectorAll d mLink).map (fun link =>
    (link.href, if jsIncludes link.rel "stylesheet" then "css" else jsOrS link.rel "link"))

/-- Candidates of pass 2 (script tags). -/
def cand2 (d : Document) : List (Option String × String) :=
  (querySelectorAll d mScript).map (fun script => (script.src, "js"))

/-- Candidates of pass 3 (images). -/
def cand3 (d : Document) : List (Option String × String) :=
  (querySelectorAll d mImg).map (fun img => (jsOr img.src img.href, "image"))

/-- Candidates of pass 4 (video sources and posters). -/
def cand4 (d : Document) : List (Option String × String) :=
  (querySelectorAll d mVideo).flatMap (fun video =>
    (if jsTruthy video.src then [(video.src, "video")] else []) ++
    (if jsTruthy video.poster then [(video.poster, "video_poster")] else []))

/-- Candidates of pass 5 (audio sources). -/
def cand5 (d : Document) : List (Option String × String) :=
  (querySelectorAll d mAudio).map (fun audio => (audio.src, "audio"))

/-- Candidates of pass 6 (computed background images). -/
def cand6 (d : Document) : List (Option String × String) :=
  (querySelectorAll d mAll).flatMap (fun element =>
    match matchUrl element.bg with
    | some g => if g = "" then [] else [(some g, "css_background_image")]
    | none => [])

/-- Candidates of pass 7 (iframe and embed). -/
def cand7 (d : Document) : List (Option String × String) :=
  (querySelectorAll d mFrame).map (fun frame => (frame.src, "embedded_content"))

/-- Candidates of pass 8 (object data). -/
def cand8 (d : Document) : List (Option String × String) :=
  (querySelectorAll d mObject).map (fun obj => (obj.dataVal, "object_data"))

/-- Candidates of pass 9 (`@font-face` sources; an inaccessible sheet
contributes nothing). -/
def cand9 (d : Document) : List (Option String × String) :=
  d.styleSheets.flatMap (fun sheet =>
    match sheet.cssRules with
    | .error _ => []
    | .ok rules => rules.flatMap (fun rule =>
        match rule with
        | .fontFace src =>
          match matchUrl src with
          | some m => if m = "" then [] else [(some m, "font")]
          | none => []
        | .other => []))

/-- The full candidate stream, in the fixed pass order. -/
def candidates (d : Document) : List (Option String × String) :=
  cand1 d ++ cand2 d ++ cand3 d ++ cand4 d ++ cand5 d ++
  cand6 d ++ cand7 d ++ cand8 d ++ cand9 d

/-- Folding `addResource` over a candidate list from a given state. -/
def insertAll (rs : List Rec) (cs : List (Option String × String)) : List Rec :=
  cs.foldl (fun a c => addResource a c.1 c.2) rs

/-! ## The state-threaded scanner

`getAllPageResources` above is the scanner as a pure function of the
document.  To settle that the scan never mutates observable document
state, the same code is also embedded in a state monad over `Document`,
every DOM API the source calls being a read of that state; the two
agree, and the final state equals the initial one. -/

/-- `document.querySelectorAll` as a state action (a read). -/
def queryS (m : Matcher) : StateM Document (List Elem) :=
  fun d => (querySelectorAll d m, d)

/-- `document.styleSheets` as a state action (a read). -/
def styleSheetsS : StateM Document (List StyleSheet) :=
  fun d => (d.styleSheets, d)

/-- `getAllPageResources()` with the document threaded as state through
every DOM access, in source order. -/
def getAllPageResourcesS : StateM Document (List Rec) := do
  let resources : List Rec := []
  let links ← queryS mLink
  let resources := links.foldl (fun rs link =>
    addResource rs link.href
      (if jsIncludes link.rel "stylesheet" then "css" else jsOrS link.rel "link"))
    resources
  let scripts ← queryS mScript
  let resources := scripts.foldl (fun rs script =>
    addResource rs script.src "js") resources
  let imgs ← queryS mImg
  let resources := imgs.foldl (fun rs img =>
    addResource rs (jsOr img.src img.href) "image") resources
  let videos ← queryS mVideo
  let resources := videos.foldl (fun rs video =>
    let rs := if jsTruthy video.src then addResource rs video.src "video" else rs
    if jsTruthy video.poster then addResource rs video.poster "video_poster" else rs)
    resources
  let audios ← queryS mAudio
  let resources := audios.foldl (fun rs audio =>
    addResource rs audio.src "audio") resources
  let alls ← queryS mAll
  let resources := alls.foldl (fun rs element =>
    match matchUrl element.bg with
    | some g => if g = "" then rs else addResource rs (some g) "css_background_image"
    | none => rs) resources
  let frames ← queryS mFrame
  let resources := frames.foldl (fun rs frame =>
    addResource rs frame.src "embedded_content") resources
  let objs ← queryS mObject
  let resources := objs.foldl (fun rs obj =>
    addResource rs obj.dataVal "object_data") resources
  let sheets ← styleSheetsS
  let resources := sheets.foldl (fun rs sheet =>
    match sheet.cssRules with
    | .error _ => rs
    | .ok rules => rules.foldl (fun rs rule =>
        match rule with
        | .fontFace src =>
          match matchUrl src with
          | some m => if m = "" then rs else addResource rs (some m) "font"
          | none => rs
        | .other => rs) rs) resources
  pure resources

/-! ## The timing collector (the performance-observer script) -/

/-- A platform `PerformanceResourceTiming` entry, with the five fields
the collector reads.  Timing numbers are modelled as rationals and are
only copied, never computed with. -/
structure PerfEntry where
  name : String
  initiatorType : String
  duration : ℚ
  transferSize : ℚ
  startTime : ℚ
deriving DecidableEq, Repr

/-- A field value of a pushed record: a string or a number. -/
inductive JSVal : Type where
  | str (s : String) : JSVal
  | num (q : ℚ) : JSVal
deriving DecidableEq, Repr

/-- The object literal pushed onto `window.loadedResources`, as an
ordered field list — note the source names the fields `type` and `size`
while reading `initiatorType` and `transferSize` from the entry. -/
def mkTimingRecord (r : PerfEntry) : List (String × JSVal) :=
  [("name", .str r.name), ("type", .str r.initiatorType),
   ("duration", .num r.duration), ("size", .num r.transferSize),
   ("startTime", .num r.startTime)]

/-- The `PerformanceObserver` callback: push one record per entry of the
delivered batch, in delivery order. -/
def observerCallback (s : List (List (String × JSVal))) (batch : List PerfEntry) :
    List (List (String × JSVal)) :=
  s ++ batch.map mkTimingRecord

/-- The collector's state after initialization (the
`performance.getEntriesByType('resource')` loop) and any sequence of
observer deliveries: `window.loadedResources`. -/
def loadedResources (initial : List PerfEntry) (batches : List (List PerfEntry)) :
    List (List (String × JSVal)) :=
  batches.foldl observerCallback (initial.map mkTimingRecord)

/-! ## Core lemmas about `addResource` and `insertAll` -/

/-- Unfolding of `addResource` at a present url. -/
lemma addResource_some (rs : List Rec) (u t : String) :
    addResource rs (some u) t =
      if u = "" ∨ rs.any (fun res => res.url = u) = true then rs
      else rs ++ [Rec.mk u t] := rfl

/-- A falsy url (`undefined` or empty) is never inserted. -/
lemma addResource_of_not_truthy (rs : List Rec) (ou : Option String) (t : String)
    (h : jsTruthy ou = false) : addResource rs ou t = rs := by
  cases ou with
  | none => rfl
  | some u =>
    have hu : u = "" := by simpa [jsTruthy] using h
    rw [addResource_some, if_pos (Or.inl hu)]

/-- A candidate whose url is already present leaves the array unchanged. -/
lemma addResource_of_mem (rs : List Rec) (u t : String)
    (h : rs.any (fun res => res.url = u) = true) :
    addResource rs (some u) t = rs := by
  rw [addResource_some, if_pos (Or.inr h)]

/-- A candidate with a fresh non-empty url is appended at the end. -/
lemma addResource_of_not_mem (rs : List Rec) (u t : String) (hu : u ≠ "")
    (h : rs.any (fun res => res.url = u) = false) :
    addResource rs (some u) t = rs ++ [Rec.mk u t] := by
  rw [addResource_some, if_neg]
  rintro (he | ha)
  · exact hu he
  · rw [h] at ha
    cases ha

/-- A url absent from the array is found by neither `any` nor `find?`. -/
lemma find?_eq_none_of_any_eq_false (rs : List Rec) (u : String)
    (h : rs.any (fun res => res.url = u) = false) :
    rs.find? (fun r => r.url = u) = none := by
  rw [List.find?_eq_none]
  intro r hrmem
  simp only [decide_eq_true_eq]
  intro hru
  have : rs.any (fun res => res.url = u) = true := by
    simp only [List.any_eq_true, decide_eq_true_eq]
    exact ⟨r, hrmem, hru⟩
  rw [this] at h
  cases h

/-- `addResource` with a url other than `u` does not change what `find?`
sees for `u`. -/
lemma find?_addResource_ne (rs : List Rec) (ou : Option String) (t : String)
    (u : String) (h : ou ≠ some u) :
    (addResource rs ou t).find? (fun r => r.url = u) =
      rs.find? (fun r => r.url = u) := by
  cases ou with
  | none => rfl
  | some v =>
    have hvu : v ≠ u := fun hvu => h (by rw [hvu])
    by_cases hc : v = "" ∨ rs.any (fun res => res.url = v) = true
    · rw [addResource_some, if_pos hc]
    · rw [addResource_of_not_mem rs v t (fun hv => hc (Or.inl hv))
        (by cases hany : rs.any (fun res => res.url = v) with
            | false => rfl
            | true => exact absurd (Or.inr hany) hc)]
      rw [List.find?_append]
      have : List.find? (fun r => decide (r.url = u)) [Rec.mk v t] = none := by
        simp [hvu]
      rw [this]
      cases rs.find? (fun r => decide (r.url = u)) <;> rfl

/-- `insertAll` applied to a concatenation folds the two parts in turn. -/
lemma insertAll_append (rs : List Rec) (cs ds : List (Option String × String)) :
    insertAll rs (cs ++ ds) = insertAll (insertAll rs cs) ds := by
  simp [insertAll, List.foldl_append]

/-- `insertAll` over a `flatMap` is the elementwise fold of `insertAll`. -/
lemma insertAll_flatMap {α : Type} (f : α → List (Option String × String))
    (l : List α) (rs : List Rec) :
    insertAll rs (l.flatMap f) = l.foldl (fun a x => insertAll a (f x)) rs := by
  induction l generalizing rs with
  | nil => rfl
  | cons x xs ih => simp [List.flatMap_cons, insertAll_append, ih]

/-- What `find?` for a fixed non-empty url `u` returns after a fold of
`addResource`: the record already present, or else the first candidate
carrying url `u`, turned into a record. -/
lemma find?_insertAll (cs : List (Option String × String)) (rs : List Rec)
    (u : String) (hu : u ≠ "") :
    (insertAll rs cs).find? (fun r => r.url = u) =
      (rs.find? (fun r => r.url = u)).or
        ((cs.find? (fun c => c.1 = some u)).map (fun c => Rec.mk u c.2)) := by
  induction cs generalizing rs with
  | nil =>
    cases hr : rs.find? (fun r => r.url = u) <;> simp [insertAll, hr, Option.or]
  | cons c cs ih =>
    obtain ⟨ou, t⟩ := c
    show (insertAll (addResource rs ou t) cs).find? _ = _
    by_cases hcu : ou = some u
    · subst hcu
      have hcfind : ((some u, t) :: cs).find? (fun c => c.1 = some u) =
          some (some u, t) := by
        rw [List.find?_cons_of_pos]
        simp
      cases hany : rs.any (fun res => res.url = u) with
      | true =>
        rw [addResource_of_mem rs u t hany, ih rs]
        obtain ⟨r, hrmem, hru⟩ : ∃ r ∈ rs, r.url = u := by
          simpa only [List.any_eq_true, decide_eq_true_eq] using hany
        obtain ⟨r', hr'⟩ : ∃ r', rs.find? (fun r => r.url = u) = some r' := by
          have hsome : (rs.find? (fun r => decide (r.url = u))).isSome := by
            rw [List.find?_isSome]
            exact ⟨r, hrmem, by simp [hru]⟩
          exact Option.isSome_iff_exists.mp hsome
        rw [hr']
        rfl
      | false =>
        have hnone := find?_eq_none_of_any_eq_false rs u hany
        rw [addResource_of_not_mem rs u t hu hany, ih]
        have happ : (rs ++ [Rec.mk u t]).find? (fun r => r.url = u) =
            some (Rec.mk u t) := by
          rw [List.find?_append, hnone]
          simp
        rw [happ, hnone, hcfind]
        rfl
    · rw [ih, find?_addResource_ne rs ou t u hcu]
      have : ((ou, t) :: cs).find? (fun c => c.1 = some u) =
          cs.find? (fun c => c.1 = some u) := by
        rw [List.find?_cons_of_neg]
        simp [hcu]
      rw [this]

/-- The urls of the array stay pairwise distinct under `insertAll`. -/
lemma nodup_insertAll (cs : List (Option String × String)) (rs : List Rec)
    (h : (rs.map Rec.url).Nodup) : ((insertAll rs cs).map Rec.url).Nodup := by
  induction cs generalizing rs with
  | nil => exact h
  | cons c cs ih =>
    obtain ⟨ou, t⟩ := c
    show ((insertAll (addResource rs ou t) cs).map Rec.url).Nodup
    refine ih _ ?_
    cases ou with
    | none => exact h
    | some u =>
      by_cases hc : u = "" ∨ rs.any (fun res => res.url = u) = true
      · rw [addResource_some, if_pos hc]
        exact h
      · push_neg at hc
        have hany : rs.any (fun res => res.url = u) = false := by
          cases hany : rs.any (fun res => res.url = u) with
          | false => rfl
          | true => exact absurd hany hc.2
        have hnot : u ∉ rs.map Rec.url := by
          intro hmem
          obtain ⟨r, hrmem, hru⟩ := List.mem_map.mp hmem
          have : rs.any (fun res => res.url = u) = true := by
            simp only [List.any_eq_true, decide_eq_true_eq]
            exact ⟨r, hrmem, hru⟩
          exact absurd this hc.2
        rw [addResource_of_not_mem rs u t hc.1 hany]
        simp [List.nodup_append, h, hnot]

/-- Every record in the array after a fold either was there before or
takes its url and type from some candidate. -/
lemma mem_insertAll (cs : List (Option String × String)) (rs : List Rec)
    (r : Rec) (h : r ∈ insertAll rs cs) :
    r ∈ rs ∨ ∃ c ∈ cs, c.1 = some r.url ∧ r.type = c.2 := by
  induction cs generalizing rs with
  | nil => exact Or.inl h
  | cons c cs ih =>
    obtain ⟨ou, t⟩ := c
    rcases ih (addResource rs ou t) h with hin | ⟨c', hc', h1, h2⟩
    · cases ou with
      | none => exact Or.inl hin
      | some u =>
        by_cases hc : u = "" ∨ rs.any (fun res => res.url = u) = true
        · rw [addResource_some, if_pos hc] at hin
          exact Or.inl hin
        · rw [addResource_some, if_neg hc] at hin
          rcases List.mem_append.mp hin with hl | hr
          · exact Or.inl hl
          · simp only [List.mem_singleton] at hr
            subst hr
            exact Or.inr ⟨(some u, t), List.mem_cons_self _ _, rfl, rfl⟩
    · exact Or.inr ⟨c', List.mem_cons_of_mem _ hc', h1, h2⟩

/-! ## The scanner as one fold over the candidate stream -/

/-- Pass 1 as an `insertAll`. -/
lemma insertAll_cand1 (d : Document) (rs : List Rec) :
    insertAll rs (cand1 d) =
      (querySelectorAll d mLink).foldl (fun rs link =>
        addResource rs link.href
          (if jsIncludes link.rel "stylesheet" then "css" else jsOrS link.rel "link"))
        rs := by
  simp [cand1, insertAll, List.foldl_map]

/-- Pass 2 as an `insertAll`. -/
lemma insertAll_cand2 (d : Document) (rs : List Rec) :
    insertAll rs (cand2 d) =
      (querySelectorAll d mScript).foldl (fun rs script =>
        addResource rs script.src "js") rs := by
  simp [cand2, insertAll, List.foldl_map]

/-- Pass 3 as an `insertAll`. -/
lemma insertAll_cand3 (d : Document) (rs : List Rec) :
    insertAll rs (cand3 d) =
      (querySelectorAll d mImg).foldl (fun rs img =>
        addResource rs (jsOr img.src img.href) "image") rs := by
  simp [cand3, insertAll, List.foldl_map]

/-- Pass 4 as an `insertAll`. -/
lemma insertAll_cand4 (d : Document) (rs : List Rec) :
    insertAll rs (cand4 d) =
      (querySelectorAll d mVideo).foldl (fun rs video =>
        let rs := if jsTruthy video.src then addResource rs video.src "video" else rs
        if jsTruthy video.poster then addResource rs video.poster "video_poster"
        else rs) rs := by
  rw [cand4, insertAll_flatMap]
  refine List.foldl_ext _ _ rs (fun a video _ => ?_)
  cases hs : jsTruthy video.src <;> cases hp : jsTruthy video.poster <;>
    simp [insertAll, hs, hp]

/-- Pass 5 as an `insertAll`. -/
lemma insertAll_cand5 (d : Document) (rs : List Rec) :
    insertAll rs (cand5 d) =
      (querySelectorAll d mAudio).foldl (fun rs audio =>
        addResource rs audio.src "audio") rs := by
  simp [cand5, insertAll, List.foldl_map]

/-- Pass 6 as an `insertAll`. -/
lemma insertAll_cand6 (d : Document) (rs : List Rec) :
    insertAll rs (cand6 d) =
      (querySelectorAll d mAll).foldl (fun rs element =>
        match matchUrl element.bg with
        | some g =>
          if g = "" then rs else addResource rs (some g) "css_background_image"
        | none => rs) rs := by
  rw [cand6, insertAll_flatMap]
  refine List.foldl_ext _ _ rs (fun a element _ => ?_)
  cases hm : matchUrl element.bg with
  | none => simp [insertAll]
  | some g => by_cases hg : g = "" <;> simp [insertAll, hg]

/-- Pass 7 as an `insertAll`. -/
lemma insertAll_cand7 (d : Document) (rs : List Rec) :
    insertAll rs (cand7 d) =
      (querySelectorAll d mFrame).foldl (fun rs frame =>
        addResource rs frame.src "embedded_content") rs := by
  simp [cand7, insertAll, List.foldl_map]

/-- Pass 8 as an `insertAll`. -/
lemma insertAll_cand8 (d : Document) (rs : List Rec) :
    insertAll rs (cand8 d) =
      (querySelectorAll d mObject).foldl (fun rs obj =>
        addResource rs obj.dataVal "object_data") rs := by
  simp [cand8, insertAll, List.foldl_map]

/-- Pass 9 as an `insertAll`. -/
lemma insertAll_cand9 (d : Document) (rs : List Rec) :
    insertAll rs (cand9 d) =
      d.styleSheets.foldl (fun rs sheet =>
        match sheet.cssRules with
        | .error _ => rs
        | .ok rules => rules.foldl (fun rs rule =>
            match rule with
            | .fontFace src =>
              match matchUrl src with
              | some m => if m = "" then rs else addResource rs (some m) "font"
              | none => rs
            | .other => rs) rs) rs := by
  rw [cand9, insertAll_flatMap]
  refine List.foldl_ext _ _ rs (fun a sheet _ => ?_)
  cases hs : sheet.cssRules with
  | error e => simp [insertAll]
  | ok rules =>
    rw [insertAll_flatMap]
    refine List.foldl_ext _ _ a (fun b rule _ => ?_)
    cases rule with
    | other => simp [insertAll]
    | fontFace src =>
      cases hm : matchUrl src with
      | none => simp [insertAll, hm]
      | some m => by_cases hg : m = "" <;> simp [insertAll, hm, hg]

/-- The whole scan is the fold of `addResource` over the candidate
stream, in the fixed pass order. -/
lemma getAllPageResources_eq_insertAll (d : Document) :
    getAllPageResources d = insertAll [] (candidates d) := by
  rw [candidates, insertAll_append, insertAll_append, insertAll_append,
    insertAll_append, insertAll_append, insertAll_append, insertAll_append,
    insertAll_append, insertAll_cand1, insertAll_cand2, insertAll_cand3,
    insertAll_cand4, insertAll_cand5, insertAll_cand6, insertAll_cand7,
    insertAll_cand8, insertAll_cand9]
  rfl

/-- Running the state-threaded scanner returns the pure scan result and
leaves the document exactly as it was. -/
lemma getAllPageResourcesS_run (d : Document) :
    getAllPageResourcesS.run d = (getAllPageResources d, d) := rfl

/-! ## Concrete documents and entries used as test inputs -/

/-- `<link rel="stylesheet" href="a.css">` -/
def linkElemA : Elem := .mk "link" "stylesheet" (some "a.css") none none none "none" []

/-- `<img src="a.css">` (the contrived collision of spec scenario A). -/
def imgElemA : Elem := .mk "img" "" none (some "a.css") none none "none" []

/-- A document holding a stylesheet link and an image with the same url. -/
def docA : Document :=
  ⟨.mk "body" "" none none none none "none" [linkElemA, imgElemA], []⟩

/-- `<source src="v.mp4">` inside a `<video>`. -/
def sourceElemV : Elem := .mk "source" "" none (some "v.mp4") none none "none" []

/-- `<video>` wrapping the source element. -/
def videoElemV : Elem := .mk "video" "" none none none none "none" [sourceElemV]

/-- A document whose only resource reference is the video's source. -/
def docVideo : Document :=
  ⟨.mk "body" "" none none none none "none" [videoElemV], []⟩

/-- An accessible sheet with one `@font-face` rule. -/
def sheetOK : StyleSheet := ⟨[.fontFace "url(\"f1.woff\")"], true⟩

/-- A cross-origin sheet with one `@font-face` rule, access denied. -/
def sheetDenied : StyleSheet := ⟨[.fontFace "url(\"f2.woff\")"], false⟩

/-- A document with the two sheets of spec scenario C. -/
def docFonts : Document :=
  ⟨.mk "body" "" none none none none "none" [], [sheetOK, sheetDenied]⟩

/-- A document whose only references are empty (`src=""`, `data=""`). -/
def docFalsy : Document :=
  ⟨.mk "body" "" none none none none "none"
    [.mk "img" "" none (some "") none none "none" [],
     .mk "object" "" none none none (some "") "none" []], []⟩

/-- A concrete platform timing entry. -/
def entry0 : PerfEntry := ⟨"https://cdn.example.com/app.css", "link", 12, 345, 7⟩

/-! ## Claim theorems -/

/-- C1: for every document, the scan output contains no two records with
equal `url`; the first record inserted for a url is kept, and a later
candidate with an already-present url leaves the array exactly as it
was — discarded, not merged or overwritten. -/
theorem scanner_dedup_unique_urls (d : Document) :
    ((getAllPageResources d).map Rec.url).Nodup ∧
    (∀ (rs : List Rec) (u t : String),
      rs.any (fun res => res.url = u) = true → addResource rs (some u) t = rs) := by
  refine ⟨?_, fun rs u t h => addResource_of_mem rs u t h⟩
  rw [getAllPageResources_eq_insertAll]
  exact nodup_insertAll _ _ (by simp)

/-- Witness for C1 at the collision document and a concrete array. -/
theorem scanner_dedup_unique_urls_witness :
    ((getAllPageResources docA).map Rec.url).Nodup ∧
    addResource [Rec.mk "a.css" "css"] (some "a.css") "image" =
      [Rec.mk "a.css" "css"] :=
  ⟨(scanner_dedup_unique_urls docA).1,
   (scanner_dedup_unique_urls docA).2 [Rec.mk "a.css" "css"] "a.css" "image"
     (by decide)⟩

/-- C2: the candidate stream is the concatenation of the nine passes in
the fixed order (links, scripts, images, video, audio, css backgrounds,
iframes/embeds, objects, fonts), and for every non-empty url the type
recorded in the scan output is the type of the first candidate in that
stream carrying the url — the kind of the earliest matching predicate. -/
theorem scanner_earliest_wins (d : Document) (u : String) (hu : u ≠ "") :
    candidates d = cand1 d ++ cand2 d ++ cand3 d ++ cand4 d ++ cand5 d ++
      cand6 d ++ cand7 d ++ cand8 d ++ cand9 d ∧
    ((getAllPageResources d).find? (fun r => r.url = u)).map Rec.type =
      ((candidates d).find? (fun c => c.1 = some u)).map Prod.snd := by
  refine ⟨rfl, ?_⟩
  rw [getAllPageResources_eq_insertAll, find?_insertAll _ _ u hu]
  cases hf : (candidates d).find? (fun c => c.1 = some u) <;> simp [Option.or]

/-- Witness for C2: in the collision document the url `a.css` is matched
by the link pass and the image pass, and is recorded with the link
pass's type. -/
theorem scanner_earliest_wins_witness :
    ((getAllPageResources docA).find? (fun r => r.url = "a.css")).map Rec.type =
      ((candidates docA).find? (fun c => c.1 = some "a.css")).map Prod.snd ∧
    ((getAllPageResources docA).find? (fun r => r.url = "a.css")).map Rec.type =
      some "css" :=
  ⟨(scanner_earliest_wins docA "a.css" (by decide)).2, by decide⟩

/-- An inaccessible sheet contributes no font candidates, so filtering
the sheet list down to the accessible sheets leaves pass 9 unchanged. -/
lemma cand9_filter_accessible (root : Elem) (sheets : List StyleSheet) :
    cand9 ⟨root, sheets.filter (fun s => s.accessible)⟩ = cand9 ⟨root, sheets⟩ := by
  show (sheets.filter (fun s => s.accessible)).flatMap _ = sheets.flatMap _
  induction sheets with
  | nil => rfl
  | cons s ss ih =>
    cases hacc : s.accessible with
    | true =>
      rw [List.filter_cons_of_pos (by simp [hacc]), List.flatMap_cons,
        List.flatMap_cons, ih]
    | false =>
      rw [List.filter_cons_of_neg (by simp [hacc]), List.flatMap_cons, ih]
      have : s.cssRules = .error () := by simp [StyleSheet.cssRules, hacc]
      simp [this]

/-- The candidate stream does not change when the inaccessible sheets
are dropped: passes 1–8 read only the element tree, and pass 9 skips
denied sheets. -/
lemma candidates_filter_accessible (d : Document) :
    candidates ⟨d.root, d.styleSheets.filter (fun s => s.accessible)⟩ =
      candidates d := by
  obtain ⟨root, sheets⟩ := d
  simp only [candidates, cand1, cand2, cand3, cand4, cand5, cand6, cand7, cand8,
    querySelectorAll, cand9_filter_accessible]

/-- C3: a document whose style sheets include denied (cross-origin)
sheets scans exactly as the same document with those sheets removed —
the denial is absorbed per sheet, every other pass contributes in full —
and scenario C's two-sheet document yields exactly the one font record
from the accessible sheet. -/
theorem scanner_cross_origin_graceful (d : Document) :
    getAllPageResources d =
      getAllPageResources ⟨d.root, d.styleSheets.filter (fun s => s.accessible)⟩ ∧
    getAllPageResources docFonts = [Rec.mk "f1.woff" "font"] := by
  refine ⟨?_, by decide⟩
  rw [getAllPageResources_eq_insertAll, getAllPageResources_eq_insertAll,
    candidates_filter_accessible]

/-- C9: a candidate whose address is absent or empty is never inserted
(`addResource` returns the array untouched), and a document whose only
references are empty attributes scans to the empty inventory rather
than an error. -/
theorem scanner_skips_falsy_refs (ou : Option String) (h : jsTruthy ou = false) :
    (∀ (rs : List Rec) (t : String), addResource rs ou t = rs) ∧
    getAllPageResources docFalsy = [] :=
  ⟨fun rs t => addResource_of_not_truthy rs ou t h, by decide⟩

/-- Witness for C9 at an absent (`none`) address. -/
theorem scanner_skips_falsy_refs_witness :
    addResource [] none "image" = [] ∧ addResource [] (some "") "js" = [] :=
  ⟨(scanner_skips_falsy_refs none (by decide)).1 [] "image",
   (scanner_skips_falsy_refs (some "") (by decide)).1 [] "js"⟩

/-- C10: a non-empty url that some `<source src=…>` element carries, and
that no link or script pass candidate carries, is recorded with type
`image`: the image pass's selector matches every `source[src]` element
(wherever it sits, including under `<video>` or `<audio>`) and runs
before the video and audio passes, so the later insertions for that url
are discarded by the dedup check. -/
theorem source_src_recorded_as_image (d : Document) (u : String) (hu : u ≠ "")
    (hsrc : (preorder [] d.root).any
      (fun p => decide (p.2.tag = "source" ∧ p.2.src = some u)) = true)
    (hearly : (cand1 d ++ cand2 d).all
      (fun c => !(decide (c.1 = some u))) = true) :
    ((getAllPageResources d).find? (fun r => r.url = u)).map Rec.type =
      some "image" := by
  obtain ⟨p, hpmem, hp⟩ := List.any_eq_true.mp hsrc
  have hptag : p.2.tag = "source" := (of_decide_eq_true hp).1
  have hpsrc : p.2.src = some u := (of_decide_eq_true hp).2
  have hel : p.2 ∈ querySelectorAll d mImg := by
    refine List.mem_map.mpr ⟨p, List.mem_filter.mpr ⟨hpmem, ?_⟩, rfl⟩
    simp [mImg, hptag, hpsrc]
  have hcand : (some u, "image") ∈ cand3 d := by
    refine List.mem_map.mpr ⟨p.2, hel, ?_⟩
    simp [jsOr, jsTruthy, hpsrc, hu]
  obtain ⟨c', hc'⟩ : ∃ c', (cand3 d).find? (fun c => c.1 = some u) = some c' := by
    have hsome : ((cand3 d).find? (fun c => decide (c.1 = some u))).isSome := by
      rw [List.find?_isSome]
      exact ⟨(some u, "image"), hcand, by simp⟩
    exact Option.isSome_iff_exists.mp hsome
  have hc'img : c'.2 = "image" := by
    obtain ⟨e, _, hfe⟩ := List.mem_map.mp (List.mem_of_find?_eq_some hc')
    rw [← hfe]
  have hall : ∀ c ∈ cand1 d ++ cand2 d, ¬(c.1 = some u) := by
    intro c hc
    simpa using List.all_eq_true.mp hearly c hc
  have h1 : (cand1 d).find? (fun c => c.1 = some u) = none := by
    rw [List.find?_eq_none]
    intro c hc
    simpa using hall c (List.mem_append_left _ hc)
  have h2 : (cand2 d).find? (fun c => c.1 = some u) = none := by
    rw [List.find?_eq_none]
    intro c hc
    simpa using hall c (List.mem_append_right _ hc)
  rw [getAllPageResources_eq_insertAll, find?_insertAll _ _ u hu]
  have hfind : (candidates d).find? (fun c => c.1 = some u) = some c' := by
    simp only [candidates, List.find?_append]
    rw [h1, h2, hc']
    rfl
  rw [hfind]
  simp [Option.or, hc'img]

/-- Witness for C10: in the document whose only reference is
`<video><source src="v.mp4"></video>`, the url is recorded as `image`,
not `video`. -/
theorem source_src_recorded_as_image_witness :
    ((getAllPageResources docVideo).find? (fun r => r.url = "v.mp4")).map
      Rec.type = some "image" :=
  source_src_recorded_as_image docVideo "v.mp4" (by decide) (by decide) (by decide)

/-- C7: running the scan leaves the document state exactly as it was,
and a second run against the resulting state returns the identical
output sequence; both runs compute the pure function of the document. -/
theorem scanner_idempotent_no_mutation (d : Document) :
    (getAllPageResourcesS.run d).2 = d ∧
    (getAllPageResourcesS.run ((getAllPageResourcesS.run d).2)).1 =
      (getAllPageResourcesS.run d).1 ∧
    (getAllPageResourcesS.run d).1 = getAllPageResources d := by
  rw [getAllPageResourcesS_run]
  exact ⟨rfl, by rw [getAllPageResourcesS_run], rfl⟩

/-- Every pass-4 candidate is typed `video` or `video_poster`. -/
lemma type_of_mem_cand4 (d : Document) (c : Option String × String)
    (h : c ∈ cand4 d) : c.2 = "video" ∨ c.2 = "video_poster" := by
  obtain ⟨v, -, hv⟩ := List.mem_flatMap.mp h
  rcases List.mem_append.mp hv with h4 | h4
  · by_cases hs : jsTruthy v.src = true
    · rw [if_pos hs] at h4
      simp only [List.mem_singleton] at h4
      subst h4
      exact Or.inl rfl
    · rw [if_neg hs] at h4
      cases h4
  · by_cases hp : jsTruthy v.poster = true
    · rw [if_pos hp] at h4
      simp only [List.mem_singleton] at h4
      subst h4
      exact Or.inr rfl
    · rw [if_neg hp] at h4
      cases h4

/-- Every pass-6 candidate is typed `css_background_image`. -/
lemma type_of_mem_cand6 (d : Document) (c : Option String × String)
    (h : c ∈ cand6 d) : c.2 = "css_background_image" := by
  obtain ⟨e, -, he⟩ := List.mem_flatMap.mp h
  cases hm : matchUrl e.bg with
  | none => simp [hm] at he
  | some g =>
    by_cases hg : g = ""
    · simp [hm, hg] at he
    · simp [hm, hg] at he
      rw [he]

/-- Every pass-9 candidate is typed `font`. -/
lemma type_of_mem_cand9 (d : Document) (c : Option String × String)
    (h : c ∈ cand9 d) : c.2 = "font" := by
  obtain ⟨sheet, -, hs⟩ := List.mem_flatMap.mp h
  cases hcr : sheet.cssRules with
  | error e =>
    rw [hcr] at hs
    cases hs
  | ok rules =>
    rw [hcr] at hs
    obtain ⟨rule, -, hr⟩ := List.mem_flatMap.mp hs
    cases rule with
    | other => simp at hr
    | fontFace src =>
      cases hm : matchUrl src with
      | none => simp [hm] at hr
      | some m =>
        by_cases hgm : m = ""
        · simp [hm, hgm] at hr
        · simp [hm, hgm] at hr
          rw [hr]

/-- C4, counterexample: the record produced from an external stylesheet
link has type `css`, which is neither the claimed value `stylesheet`,
nor any other member of the claimed enumeration, nor the link's raw
`rel` string. -/
theorem scanner_kind_claim_counterexample :
    (getAllPageResources docA).map Rec.type = ["css"] ∧
    "css" ∉ ["stylesheet", "script", "image", "video", "video-poster",
      "audio", "css-background-image", "embedded-content", "object-data",
      "font"] ∧
    (querySelectorAll docA mLink).map Elem.rel = ["stylesheet"] ∧
    "css" ≠ "stylesheet" := by decide

/-- C4 as amended: every record's type is one of the code's tags `css`,
`js`, `image`, `video`, `video_poster`, `audio`, `css_background_image`,
`embedded_content`, `object_data`, `font`, the default `link` (rel
empty), or the raw `rel` string of one of the document's link elements;
a stylesheet link yields type `css`. -/
theorem scanner_kind_vocabulary (d : Document) (r : Rec)
    (h : r ∈ getAllPageResources d) :
    r.type ∈ ["css", "js", "image", "video", "video_poster", "audio",
      "css_background_image", "embedded_content", "object_data", "font",
      "link"] ∨
    r.type ∈ (querySelectorAll d mLink).map Elem.rel := by
  rw [getAllPageResources_eq_insertAll] at h
  rcases mem_insertAll _ _ _ h with h0 | ⟨c, hc, -, h2⟩
  · cases h0
  · rw [h2]
    simp only [candidates, List.mem_append] at hc
    rcases hc with ((((((((hc | hc) | hc) | hc) | hc) | hc) | hc) | hc) | hc)
    · obtain ⟨l, hl, rfl⟩ := List.mem_map.mp hc
      by_cases hs : jsIncludes l.rel "stylesheet" = true
      · rw [if_pos hs]
        left
        simp
      · rw [if_neg hs]
        by_cases hr : l.rel = ""
        · left
          simp [jsOrS, hr]
        · right
          rw [jsOrS, if_neg hr]
          exact List.mem_map.mpr ⟨l, hl, rfl⟩
    · obtain ⟨s, -, rfl⟩ := List.mem_map.mp hc
      left
      simp
    · obtain ⟨i, -, rfl⟩ := List.mem_map.mp hc
      left
      simp
    · rcases type_of_mem_cand4 d c hc with h4 | h4 <;> rw [h4] <;> left <;> simp
    · obtain ⟨a, -, rfl⟩ := List.mem_map.mp hc
      left
      simp
    · rw [type_of_mem_cand6 d c hc]
      left
      simp
    · obtain ⟨f, -, rfl⟩ := List.mem_map.mp hc
      left
      simp
    · obtain ⟨o, -, rfl⟩ := List.mem_map.mp hc
      left
      simp
    · rw [type_of_mem_cand9 d c hc]
      left
      simp

/-- Witness for the amended C4 at the stylesheet-link document. -/
theorem scanner_kind_vocabulary_witness :
    Rec.mk "a.css" "css" ∈ getAllPageResources docA ∧
    ((Rec.mk "a.css" "css").type ∈ ["css", "js", "image", "video",
      "video_poster", "audio", "css_background_image", "embedded_content",
      "object_data", "font", "link"] ∨
    (Rec.mk "a.css" "css").type ∈ (querySelectorAll docA mLink).map Elem.rel) :=
  ⟨by decide, scanner_kind_vocabulary docA (Rec.mk "a.css" "css") (by decide)⟩

/-- When the group characters contain no closing parenthesis, quote or
newline, the lazy group stops exactly at the closing parenthesis that
follows them, whatever comes after it. -/
lemma lazyGroup_clean (a rest : List Char)
    (h : ∀ c ∈ a, c ≠ ')' ∧ isQuoteChar c = false ∧ c ≠ '\n') :
    lazyGroup (a ++ ')' :: rest) = some (String.mk a) := by
  induction a with
  | nil => rfl
  | cons c cs ih =>
    obtain ⟨hc1, hc2, hc3⟩ := h c (List.mem_cons_self c cs)
    have hcs := ih (fun x hx => h x (List.mem_cons_of_mem c hx))
    simp [lazyGroup, hc1, hc2, hc3, hcs]

/-- C8: the `url(...)` extraction is first-match-only: for a value of
the form `url(<a>)<rest>` — whatever further `url(...)` occurrences
`<rest>` holds — the extracted address is exactly `<a>`; and each
computed `background-image` value and each `@font-face` rule yields at
most one candidate. -/
theorem css_url_extraction_first_only (a rest : String)
    (h : ∀ c ∈ a.data, c ≠ ')' ∧ isQuoteChar c = false ∧ c ≠ '\n') :
    matchUrl ("url(" ++ a ++ ")" ++ rest) = some a ∧
    (∀ v : String, (match matchUrl v with
      | some g => if g = "" then [] else [(some g, "css_background_image")]
      | none => ([] : List (Option String × String))).length ≤ 1) ∧
    (∀ src : String, (match matchUrl src with
      | some m => if m = "" then [] else [(some m, "font")]
      | none => ([] : List (Option String × String))).length ≤ 1) := by
  refine ⟨?_, ?_, ?_⟩
  · have hdata : ("url(" ++ a ++ ")" ++ rest).data =
        'u' :: 'r' :: 'l' :: '(' :: (a.data ++ ')' :: rest.data) := by
      simp [String.data_append]
    rw [matchUrl, hdata]
    have hq0 : isQuoteChar ')' = false := by decide
    cases had : a.data with
    | nil =>
      have ha : a = "" := by
        have h1 : String.mk a.data = a := rfl
        rw [← h1, had]
      subst ha
      simp [findUrlMatch, tryUrlAt, lazyGroup, hq0]
    | cons c cs =>
      have hq : isQuoteChar c = false :=
        (h c (by rw [had]; exact List.mem_cons_self c cs)).2.1
      have hclean := lazyGroup_clean (c :: cs) rest.data (by rw [← had]; exact h)
      have hmk : String.mk (c :: cs) = a := by
        have h1 : String.mk a.data = a := rfl
        rw [← h1, had]
      simp only [List.cons_append] at hclean
      simp [findUrlMatch, tryUrlAt, hq, hclean, hmk]
  · intro v
    cases matchUrl v with
    | none => simp
    | some g => by_cases hg : g = "" <;> simp [hg]
  · intro src
    cases matchUrl src with
    | none => simp
    | some m => by_cases hm : m = "" <;> simp [hm]

/-- Witness for C8 on a two-layer background value and a two-entry
`@font-face` fallback list: only the first `url(...)` is captured. -/
theorem css_url_extraction_first_only_witness :
    matchUrl "url(a.png), url(b.png)" = some "a.png" ∧
    matchUrl "url(f1.woff) format(woff), url(f2.woff)" = some "f1.woff" :=
  ⟨by
    have := (css_url_extraction_first_only "a.png" ", url(b.png)" (by decide)).1
    simpa using this,
   by
    have := (css_url_extraction_first_only "f1.woff"
      " format(woff), url(f2.woff)" (by decide)).1
    simpa using this⟩

/-- C5, counterexample: the pushed record's keys are `name`, `type`,
`duration`, `size`, `startTime`; the claimed keys `initiatorType` and
`transferSize` do not occur. -/
theorem timing_record_fields_counterexample :
    (mkTimingRecord entry0).map Prod.fst =
      ["name", "type", "duration", "size", "startTime"] ∧
    "initiatorType" ∉ (mkTimingRecord entry0).map Prod.fst ∧
    "transferSize" ∉ (mkTimingRecord entry0).map Prod.fst := by decide

/-- C5 as amended: for every platform entry the pushed record has
exactly the fields `name`, `type`, `duration`, `size`, `startTime`, in
that order, holding respectively the entry's `name`, `initiatorType`,
`duration`, `transferSize` and `startTime` values. -/
theorem timing_record_fields (r : PerfEntry) :
    (mkTimingRecord r).map Prod.fst =
      ["name", "type", "duration", "size", "startTime"] ∧
    (mkTimingRecord r).lookup "name" = some (.str r.name) ∧
    (mkTimingRecord r).lookup "type" = some (.str r.initiatorType) ∧
    (mkTimingRecord r).lookup "duration" = some (.num r.duration) ∧
    (mkTimingRecord r).lookup "size" = some (.num r.transferSize) ∧
    (mkTimingRecord r).lookup "startTime" = some (.num r.startTime) := by
  refine ⟨rfl, ?_, ?_, ?_, ?_, ?_⟩ <;> simp [mkTimingRecord, List.lookup]

/-- Appending further delivery batches only appends their records, in
delivery order. -/
lemma loadedResources_append (initial : List PerfEntry)
    (bs cs : List (List PerfEntry)) :
    loadedResources initial (bs ++ cs) =
      loadedResources initial bs ++
        cs.flatMap (fun batch => batch.map mkTimingRecord) := by
  have hfold : ∀ (ds : List (List PerfEntry)) (s : List (List (String × JSVal))),
      ds.foldl observerCallback s =
        s ++ ds.flatMap (fun batch => batch.map mkTimingRecord) := by
    intro ds
    induction ds with
    | nil => simp
    | cons b bs ih =>
      intro s
      simp [observerCallback, ih, List.flatMap_cons]
  simp [loadedResources, List.foldl_append, hfold]

/-- C6: the collector's record sequence is append-only and
insertion-ordered — the state after any earlier batch list is a prefix
of (and no longer than) the state after more batches arrive, with the new
records appended in delivery order; initialization is exactly the map of
the platform's buffered entries in their order; and nothing is
deduplicated: a repeated entry yields a repeated record. -/
theorem collector_append_only (initial : List PerfEntry)
    (bs cs : List (List PerfEntry)) :
    loadedResources initial (bs ++ cs) =
      loadedResources initial bs ++
        cs.flatMap (fun batch => batch.map mkTimingRecord) ∧
    loadedResources initial bs <+: loadedResources initial (bs ++ cs) ∧
    (loadedResources initial bs).length ≤
      (loadedResources initial (bs ++ cs)).length ∧
    loadedResources initial [] = initial.map mkTimingRecord ∧
    loadedResources [entry0, entry0] [[entry0]] =
      [mkTimingRecord entry0, mkTimingRecord entry0, mkTimingRecord entry0] := by
  refine ⟨loadedResources_append initial bs cs, ?_, ?_, rfl, by decide⟩
  · rw [loadedResources_append initial bs cs]
    exact List.prefix_append _ _
  · rw [loadedResources_append initial bs cs]
    simp
